import Mathlib

/-!
# Verification of the IdeaGenius PRD pipeline

A shallow embedding of the core logic of the IdeaGenius desktop app:

* the JSON value model and JavaScript-style coercions used by the
  PRD Output Normalizer (`normalizePrdData` in
  `src/components/steps/PrdGeneration.tsx`);
* the per-project step pipeline operations (`createProject`,
  `updateStepContent`, `completeStep` in `src/hooks/useDatabase.ts`,
  and the rewind flow `StepChangeWarning.handleStepUpdate` /
  `handleConfirmChange` in `App.tsx`);
* the per-section PRD regeneration state updates
  (`handleRegenerateSection`, `handleGenerateImplementationSection`
  in `src/components/steps/PrdGeneration.tsx`);
* the Stage 1 tech-stack recommendation post-processing
  (`techRecommender` in `src/ai/analysisGraph.ts`).

Pure functions become Lean functions; React/store state mutation becomes
explicit state passing on a `List Project`; JavaScript exceptions
(`TypeError` on property access of `null`/`undefined`) become
`Except Unit`.
-/

set_option autoImplicit false

namespace IdeaGenius

/-! ## JSON values and JavaScript coercion semantics -/

/-- A JSON-ish JavaScript value, as seen by the normalizer.  `undefined` models
JavaScript `undefined` (absent property reads).  Numbers are modelled as
integers; the normalizer never does arithmetic, it only tests truthiness. -/
inductive JSVal where
  | undefined : JSVal
  | null : JSVal
  | bool : Bool → JSVal
  | num : Int → JSVal
  | str : String → JSVal
  | arr : List JSVal → JSVal
  | obj : List (String × JSVal) → JSVal

/-- JavaScript truthiness: `undefined`, `null`, `false`, `0` and `""` are
falsy; every array and object (including empty ones) is truthy. -/
def truthy : JSVal → Bool
  | .undefined => false
  | .null => false
  | .bool b => b
  | .num n => n != 0
  | .str s => s != ""
  | .arr _ => true
  | .obj _ => true

/-- `Array.isArray`. -/
def isArray : JSVal → Bool
  | .arr _ => true
  | _ => false

/-- `typeof v === 'string'`. -/
def isString : JSVal → Bool
  | .str _ => true
  | _ => false

/-- `v` is not `null` and not `undefined`, i.e. property access on `v`
does not throw. -/
def notNullish : JSVal → Bool
  | .undefined => false
  | .null => false
  | _ => true

/-- The element list of an array value (only ever applied to arrays). -/
def asArray : JSVal → List JSVal
  | .arr xs => xs
  | _ => []

/-- The characters of a string value (only ever applied to strings). -/
def asString : JSVal → String
  | .str s => s
  | _ => ""

/-- First-match lookup in an object's field list; `undefined` when the key
is absent (JavaScript property read on a plain object). -/
def lookupD : List (String × JSVal) → String → JSVal
  | [], _ => .undefined
  | (k', v) :: fs, k => if k' = k then v else lookupD fs k

/-- Total property read: `undefined` on primitives (which have none of the
properties the normalizer asks for), field lookup on objects.  Only
meaningful for non-nullish `v`. -/
def getPropD (v : JSVal) (k : String) : JSVal :=
  match v with
  | .obj fs => lookupD fs k
  | _ => .undefined

/-- JavaScript property access `v.k`: throws a `TypeError` when `v` is
`null` or `undefined`, otherwise reads the property. -/
def getProp (v : JSVal) (k : String) : Except Unit JSVal :=
  if notNullish v then .ok (getPropD v k) else .error ()

/-- Optional chaining `v?.k`: `undefined` when `v` is nullish, otherwise
the property read (which then cannot throw). -/
def optChain (v : JSVal) (k : String) : JSVal :=
  if notNullish v then getPropD v k else .undefined

/-- JavaScript `a || b`. -/
def jsOr (a b : JSVal) : JSVal :=
  if truthy a then a else b

/-- The list-wrapping coercion used for `goals`, `frustrations`,
`deliverables` and `responsibilities`:
`Array.isArray(v) ? v : (v ? [v] : [])`. -/
def wrapList (v : JSVal) : JSVal :=
  if isArray v then v else if truthy v then .arr [v] else .arr []

/-- Left-to-right fail-fast map, the semantics of `Array.prototype.map`
over a callback that may throw. -/
def mapME (f : JSVal → Except Unit JSVal) : List JSVal → Except Unit (List JSVal)
  | [] => pure []
  | x :: xs => do
    let y ← f x
    let ys ← mapME f xs
    pure (y :: ys)

/-- Index-passing variant of `mapME`, the semantics of
`Array.prototype.map` with an `(element, index)` callback. -/
def mapIdxME (f : Nat → JSVal → Except Unit JSVal) : Nat → List JSVal → Except Unit (List JSVal)
  | _, [] => pure []
  | i, x :: xs => do
    let y ← f i x
    let ys ← mapIdxME f (i + 1) xs
    pure (y :: ys)

/-! ## The Output Normalizer

`normalizePrdData`, `src/components/steps/PrdGeneration.tsx` lines 20-129.
-/

/-- One persona, `PrdGeneration.tsx` lines 30-35:
the `(p, i) => ({name: p.name || `Persona i+1`, role: p.role || 'N/A', ...})`
callback.  Reading `p.name` throws when `p` is `null`/`undefined`. -/
def normPersona (i : Nat) (p : JSVal) : Except Unit JSVal := do
  let name ← getProp p "name"
  let role ← getProp p "role"
  let goals ← getProp p "goals"
  let frustrations ← getProp p "frustrations"
  pure (.obj [
    ("name", jsOr name (.str ("Persona " ++ toString (i + 1)))),
    ("role", jsOr role (.str "N/A")),
    ("goals", wrapList goals),
    ("frustrations", wrapList frustrations)])

/-- One feature, `PrdGeneration.tsx` lines 44-48. -/
def normFeature (f : JSVal) : Except Unit JSVal := do
  let name ← getProp f "name"
  let description ← getProp f "description"
  let priority ← getProp f "priority"
  pure (.obj [
    ("name", jsOr name (.str "N/A")),
    ("description", jsOr description (.str "")),
    ("priority", jsOr priority (.str "N/A"))])

/-- The section unwrapping for `personas` / `features`,
`PrdGeneration.tsx` lines 24-29 and 38-43: take the same-named nested
array if present, else the value itself if it is an array, else `[]`.
The subsequent `(personas || [])` in the source is the identity because
every branch already yields an array (arrays are truthy). -/
def selectSection (raw : JSVal) (key : String) : List JSVal :=
  let nested := optChain raw key
  if truthy nested && isArray nested then asArray nested
  else if isArray raw then asArray raw
  else []

/-- Principles, `PrdGeneration.tsx` lines 60-63. -/
def normPrinciples (raw : JSVal) : JSVal :=
  if isArray raw then raw
  else if isString raw then .arr [raw]
  else .arr []

/-- Palette, `PrdGeneration.tsx` lines 64-67. -/
def normPalette (raw : JSVal) : JSVal :=
  if isString raw then .obj [("colors", raw)]
  else jsOr raw (.obj [])

/-- One screen in the array branch, `PrdGeneration.tsx` lines 71-73. -/
def normScreen (s : JSVal) : Except Unit JSVal :=
  if isString s then
    pure (.obj [("name", s), ("description", .str "")])
  else do
    let name ← getProp s "name"
    let description ← getProp s "description"
    pure (.obj [("name", jsOr name (.str "")), ("description", jsOr description (.str ""))])

/-- The separators of the screen-splitting regex `/\n|,|;/`. -/
def isSepChar (c : Char) : Bool := c == '\n' || c == ',' || c == ';'

/-- `String.prototype.split` at single-character separators: adjacent
separators yield empty pieces and the empty string yields `[""]`, as in
JavaScript. -/
def splitChars : List Char → List (List Char)
  | [] => [[]]
  | c :: rest =>
    if isSepChar c then [] :: splitChars rest
    else
      match splitChars rest with
      | [] => [[c]]
      | g :: gs => (c :: g) :: gs

/-- The whitespace removed by `String.prototype.trim` (restricted to the
ASCII whitespace occurring in model output). -/
def isSpaceChar (c : Char) : Bool := c == ' ' || c == '\t' || c == '\n' || c == '\r'

/-- `s.trim()`. -/
def trimChars (cs : List Char) : List Char :=
  ((cs.dropWhile isSpaceChar).reverse.dropWhile isSpaceChar).reverse

/-- Screens, `PrdGeneration.tsx` lines 69-76: an array is mapped through
`normScreen`; a string is split at newline/comma/semicolon and each piece
trimmed into a `{name, description:''}` record; anything else gives `[]`. -/
def normScreens (raw : JSVal) : Except Unit (List JSVal) :=
  if isArray raw then mapME normScreen (asArray raw)
  else if isString raw then
    pure ((splitChars (asString raw).data).map
      fun g => JSVal.obj [("name", .str (String.mk (trimChars g))), ("description", .str "")])
  else pure []

/-- One timeline phase, `PrdGeneration.tsx` lines 82-87. -/
def normPhase (p : JSVal) : Except Unit JSVal := do
  let phase ← getProp p "phase"
  let duration ← getProp p "duration"
  let description ← getProp p "description"
  let deliverables ← getProp p "deliverables"
  pure (.obj [
    ("phase", jsOr phase (.str "")),
    ("duration", jsOr duration (.str "")),
    ("description", jsOr description (.str "")),
    ("deliverables", wrapList deliverables)])

/-- One resource, `PrdGeneration.tsx` lines 91-95. -/
def normResource (r : JSVal) : Except Unit JSVal := do
  let role ← getProp r "role"
  let commitment ← getProp r "commitment"
  let responsibilities ← getProp r "responsibilities"
  pure (.obj [
    ("role", jsOr role (.str "")),
    ("commitment", jsOr commitment (.str "")),
    ("responsibilities", wrapList responsibilities)])

/-- One stakeholder, `PrdGeneration.tsx` lines 99-104. -/
def normStakeholder (s : JSVal) : Except Unit JSVal := do
  let stakeholder ← getProp s "stakeholder"
  let communication ← getProp s "communication"
  let frequency ← getProp s "frequency"
  let deliverables ← getProp s "deliverables"
  pure (.obj [
    ("stakeholder", jsOr stakeholder (.str "")),
    ("communication", jsOr communication (.str "")),
    ("frequency", jsOr frequency (.str "")),
    ("deliverables", wrapList deliverables)])

/-- The `Array.isArray(v) ? v.map(f) : []` pattern used for the three
implementation lists. -/
def normSection (f : JSVal → Except Unit JSVal) (raw : JSVal) : Except Unit (List JSVal) :=
  if isArray raw then mapME f (asArray raw) else pure []

/-- The implementation plan, `PrdGeneration.tsx` lines 79-112: built only
when `prdData.implementation` is truthy, otherwise left `undefined`. -/
def normImplementation (raw : JSVal) : Except Unit JSVal :=
  if truthy raw then do
    let timelineRaw ← getProp raw "timeline"
    let timeline ← normSection normPhase timelineRaw
    let resourcesRaw ← getProp raw "resources"
    let resources ← normSection normResource resourcesRaw
    let stakeholdersRaw ← getProp raw "stakeholders"
    let stakeholders ← normSection normStakeholder stakeholdersRaw
    pure (.obj [
      ("timeline", .arr timeline),
      ("resources", .arr resources),
      ("stakeholders", .arr stakeholders)])
  else pure .undefined

/-- The Output Normalizer, `normalizePrdData`,
`src/components/steps/PrdGeneration.tsx` lines 20-129.  Property reads on
`prdData` itself throw iff `prdData` is nullish; reads inside a section
array's `map` callback throw when an entry is nullish.  The result object
carries the `implementation` key with value `undefined` when the input
had no truthy `implementation`, mirroring the object literal in the
source. -/
def normalizePrdData (prdData : JSVal) : Except Unit JSVal := do
  let summary0 ← getProp prdData "summary"
  let summary := jsOr summary0 (.obj [])
  let personasRaw ← getProp prdData "personas"
  let personas ← mapIdxME normPersona 0 (selectSection personasRaw "personas")
  let featuresRaw ← getProp prdData "features"
  let features ← mapME normFeature (selectSection featuresRaw "features")
  let techStackRaw ← getProp prdData "techStack"
  let uiDesignRaw ← getProp prdData "uiDesign"
  let uiDesign := jsOr uiDesignRaw (.obj [])
  let principlesRaw ← getProp uiDesign "principles"
  let paletteRaw ← getProp uiDesign "palette"
  let screensRaw ← getProp uiDesign "screens"
  let screens ← normScreens screensRaw
  let implementationRaw ← getProp prdData "implementation"
  let implementation ← normImplementation implementationRaw
  let elevatorPitch ← getProp summary "elevatorPitch"
  let summaryText ← getProp summary "summary"
  pure (.obj [
    ("summary", .obj [
      ("elevatorPitch", jsOr elevatorPitch (.str "")),
      ("summary", jsOr summaryText (.str ""))]),
    ("personas", .arr personas),
    ("features", .arr features),
    ("techStack", .obj [
      ("frontend", jsOr (optChain techStackRaw "frontend") (.str "Not specified")),
      ("backend", jsOr (optChain techStackRaw "backend") (.str "Not specified")),
      ("database", jsOr (optChain techStackRaw "database") (.str "Not specified")),
      ("hosting", jsOr (optChain techStackRaw "hosting") (.str "Not specified"))]),
    ("uiDesign", .obj [
      ("principles", normPrinciples principlesRaw),
      ("palette", normPalette paletteRaw),
      ("screens", .arr screens)]),
    ("implementation", implementation)])

/-! ## The step pipeline state machine

`src/hooks/useDatabase.ts` (renderer-side store operations) and the
rewind flow of `StepChangeWarning` in `App.tsx`.
-/

/-- `UIProjectStep.status`. -/
inductive StepStatus where
  | pending : StepStatus
  | inProgress : StepStatus
  | completed : StepStatus
deriving DecidableEq

/-- `UIProject.status`. -/
inductive ProjStatus where
  | draft : ProjStatus
  | inProgress : ProjStatus
  | completed : ProjStatus
deriving DecidableEq

/-- `UIProjectStep`: the step's JSON content blob is a `JSVal`
(`undefined` for a step whose content was never written). -/
structure Step where
  id : String
  title : String
  status : StepStatus
  content : JSVal

/-- `UIProject` with its ordered steps. -/
structure Project where
  id : String
  name : String
  status : ProjStatus
  steps : List Step

/-- The five default steps created by the `db-create-project` IPC handler
(`electron/main.ts`), all `pending`, ids `<project>_step_<n>`. -/
def defaultSteps (projectId : String) : List Step :=
  [ { id := projectId ++ "_step_1", title := "Input Analysis", status := .pending, content := .undefined },
    { id := projectId ++ "_step_2", title := "Idea Generation", status := .pending, content := .undefined },
    { id := projectId ++ "_step_3", title := "Idea Refinement", status := .pending, content := .undefined },
    { id := projectId ++ "_step_4", title := "PRD Generation", status := .pending, content := .undefined },
    { id := projectId ++ "_step_5", title := "Project Finalization", status := .pending, content := .undefined } ]

/-- `createProject` (`useDatabase.ts` lines 83-108): the renderer sends
`status: 'draft'` and the main process creates the five pending steps. -/
def createProject (projectId name : String) : Project :=
  { id := projectId, name := name, status := .draft, steps := defaultSteps projectId }

/-- The `setProjects(prev => prev.map(p => p.id === updatedProject.id ?
updatedProject : p))` update inside `updateProject`
(`useDatabase.ts` lines 128-131). -/
def updateProjectInList (projects : List Project) (updated : Project) : List Project :=
  projects.map fun p => if p.id = updated.id then updated else p

/-- `updateStepContent` (`useDatabase.ts` lines 152-175): find the
project, replace the matching step's content, statuses untouched. -/
def updateStepContent (projects : List Project) (projectId stepId : String) (content : JSVal) :
    List Project :=
  match projects.find? (fun p => p.id = projectId) with
  | none => projects
  | some project =>
    let updatedSteps := project.steps.map fun step =>
      if step.id = stepId then { step with content := content } else step
    updateProjectInList projects { project with steps := updatedSteps }

/-- The JavaScript mutation `steps[i].status = 'pending'`; the source
only reaches it with `i` in bounds. -/
def setStatusAt (steps : List Step) (i : Nat) (st : StepStatus) : List Step :=
  match steps.get? i with
  | none => steps
  | some s => steps.set i { s with status := st }

/-- JavaScript `Array.prototype.findIndex` on the step list: the index of
the first step with the given id, `-1` when there is none. -/
def jsFindIndex (steps : List Step) (stepId : String) : Int :=
  match steps.findIdx? (fun s => s.id = stepId) with
  | some i => (i : Int)
  | none => -1

/-- `completeStep` (`useDatabase.ts` lines 178-208).  Faithful to the
source: `findIndex` yields `-1` when `stepId` is not among the project's
steps, and the guard `currentStepIndex < steps.length - 1` then still
passes (for a non-empty step list), so `updatedSteps[currentStepIndex + 1]`
is `updatedSteps[0]`; the next step is set to `pending` unconditionally;
the project status is recomputed as `completed` iff every step is
`completed`, else `in-progress`. -/
def completeStep (projects : List Project) (projectId stepId : String) (data : JSVal) :
    List Project :=
  match projects.find? (fun p => p.id = projectId) with
  | none => projects
  | some project =>
    let updatedSteps := project.steps.map fun step =>
      if step.id = stepId then { step with status := .completed, content := data } else step
    let currentStepIndex : Int := jsFindIndex project.steps stepId
    let updatedSteps :=
      if currentStepIndex < (project.steps.length : Int) - (1 : Int) then
        setStatusAt updatedSteps (currentStepIndex + 1).toNat .pending
      else updatedSteps
    let updatedProject : Project :=
      { project with
        steps := updatedSteps
        status := if updatedSteps.all (fun s => s.status = .completed) then .completed
                  else .inProgress }
    updateProjectInList projects updatedProject

/-- `StepChangeWarning.isOnPreviousStep` (`App.tsx`): the step currently
being viewed is `completed`. -/
def isOnPreviousStep (project : Project) (currentStepIndex : Nat) : Bool :=
  match project.steps.get? currentStepIndex with
  | some s => s.status = .completed
  | none => false

/-- `StepChangeWarning.handleStepUpdate` (`App.tsx`): when the viewed
step is completed, record the pending change and touch nothing; otherwise
forward to `updateStepContent`.  The first component is the
`pendingChange` set (the confirmation request), the second the resulting
store state. -/
def handleStepUpdate (projects : List Project) (project : Project) (currentStepIndex : Nat)
    (stepId : String) (content : JSVal) : Option (String × JSVal) × List Project :=
  if isOnPreviousStep project currentStepIndex then
    (some (stepId, content), projects)
  else
    (none, updateStepContent projects project.id stepId content)

/-- `Array.prototype.map` with an `(element, index)` callback on steps,
written with an explicit running index. -/
def stepMapIdx (f : Nat → Step → Step) : Nat → List Step → List Step
  | _, [] => []
  | i, s :: rest => f i s :: stepMapIdx f (i + 1) rest

/-- The step-status reassignment inside `handleConfirmChange`
(`App.tsx` lines 256-264): indices below the viewed step `completed`,
the viewed step `in-progress`, everything after `pending`. -/
def rewindSteps (steps : List Step) (currentStepIndex : Nat) : List Step :=
  stepMapIdx
    (fun i step =>
      if i < currentStepIndex then { step with status := .completed }
      else if i = currentStepIndex then { step with status := .inProgress }
      else { step with status := .pending })
    0 steps

/-- `updateStepContent` as it executes from a stale React closure: the
`useCallback` in `useDatabase.ts` lines 152-175 closes over the
`projects` snapshot of the render that created it (`readProjects`), so
the project (with its pre-call step statuses and project status) is
looked up there; the `setProjects(prev => ...)` functional updater
inside `updateProject` then applies the write to the current state
(`writeProjects`). An early return when the snapshot has no such
project leaves the current state untouched. -/
def updateStepContentStale (readProjects writeProjects : List Project)
    (projectId stepId : String) (content : JSVal) : List Project :=
  match readProjects.find? (fun p => p.id = projectId) with
  | none => writeProjects
  | some project =>
    let updatedSteps := project.steps.map fun step =>
      if step.id = stepId then { step with content := content } else step
    updateProjectInList writeProjects { project with steps := updatedSteps }

/-- `StepChangeWarning.handleConfirmChange` (`App.tsx` lines 251-281):
write the rewound project with status `'in-progress'`, then run the
original update that triggered the warning. That follow-up
`onStepUpdate` is the callback captured at the pre-click render, so its
`updateStepContent` reads the pre-rewind `projects` closure and its
`updateProject` writes that stale project's step statuses and project
status back over the rewound entry (`useDatabase.ts` lines 120-131). -/
def handleConfirmChange (projects : List Project) (project : Project) (currentStepIndex : Nat)
    (pendingStepId : String) (pendingContent : JSVal) : List Project :=
  let updatedProject : Project :=
    { project with steps := rewindSteps project.steps currentStepIndex, status := .inProgress }
  let projects1 := updateProjectInList projects updatedProject
  updateStepContentStale projects projects1 project.id pendingStepId pendingContent

/-- `StepChangeWarning.handleCancelChange` (`App.tsx`): only clears the
pending-change dialog state; no project or step state is written. -/
def handleCancelChange (projects : List Project) : List Project :=
  projects

/-- The spec's derived project status, written from the spec's words for
comparison with the store operations: `completed` iff all steps
completed, `draft` iff no step has left `pending`, else `in-progress`. -/
def specDerivedStatus (steps : List Step) : ProjStatus :=
  if steps.all (fun s => s.status = .completed) then .completed
  else if steps.all (fun s => s.status = .pending) then .draft
  else .inProgress

/-! ## Per-section PRD regeneration

`handleRegenerateSection` and
`handleGenerateImplementationSection` / `handleRegenerateImplementationSection`
in `src/components/steps/PrdGeneration.tsx`.  The component's `prdData`
record is an object; we carry its field list.
-/

/-- Replace the value of `k` in place (or append it), the effect of the
object literal `{...fs, [k]: v}` on field lookup and order. -/
def setField (fs : List (String × JSVal)) (k : String) (v : JSVal) : List (String × JSVal) :=
  match fs with
  | [] => [(k, v)]
  | (k', v') :: rest => if k' = k then (k, v) :: rest else (k', v') :: setField rest k v

/-- `handleRegenerateSection` (`PrdGeneration.tsx` lines 294-332), state
math only: normalize `{[sectionKey]: result}`, pick out that key, and
write it over `prdData` with an object spread.  Throws (and in the source
is caught, leaving the record unchanged) iff the normalizer throws. -/
def regenerateSectionData (prdData : List (String × JSVal)) (sectionKey : String)
    (result : JSVal) : Except Unit (List (String × JSVal)) := do
  let normalizedResult ← normalizePrdData (.obj [(sectionKey, result)])
  pure (setField prdData sectionKey (getPropD normalizedResult sectionKey))

/-- `handleGenerateImplementationSection` and
`handleRegenerateImplementationSection` (`PrdGeneration.tsx` lines
510-559 and 561-610), state math only: take
`prdData.implementation || {timeline: [], resources: [], stakeholders: []}`,
rebuild the three lists with `[sectionKey]` overridden by the raw IPC
result, and write the rebuilt plan over `prdData.implementation`. -/
def generateImplementationSectionData (prdData : List (String × JSVal)) (sectionKey : String)
    (result : JSVal) : List (String × JSVal) :=
  let currentImplementation := jsOr (lookupD prdData "implementation")
    (.obj [("timeline", .arr []), ("resources", .arr []), ("stakeholders", .arr [])])
  let newImplementation := setField
    [ ("timeline", getPropD currentImplementation "timeline"),
      ("resources", getPropD currentImplementation "resources"),
      ("stakeholders", getPropD currentImplementation "stakeholders") ]
    sectionKey result
  setField prdData "implementation" (.obj newImplementation)

/-! ## Stage 1 tech-stack recommendation

`techRecommender` in `src/ai/analysisGraph.ts` lines 67-108.
-/

/-- The optional user-supplied default tech-stack preferences
(`AgentState.defaultTechStack`). -/
structure DefaultTechStack where
  frontend : String
  backend : String
  database : String
  hosting : String
  additional : String

/-- The `techStack` value assembled by `techRecommender`. -/
structure TechStackRecommendation where
  frontend : JSVal
  backend : JSVal
  database : JSVal
  hosting : JSVal

/-- `techRecommender` (`analysisGraph.ts` lines 67-108), modelled as a
function of the user's default tech stack and the model's parsed JSON
response `aiResult`.  In the source, `defaultTechStack` is only
serialized into the prompt text (`USER PREFERENCES: {defaultTechStack}`);
the returned `techStack` is computed from `aiResult` alone:
`aiResult.frontend || 'Not specified'` and so on. -/
def techRecommender (defaultTechStack : Option DefaultTechStack) (aiResult : JSVal) :
    Except Unit TechStackRecommendation := do
  let _ := defaultTechStack
  let frontend ← getProp aiResult "frontend"
  let backend ← getProp aiResult "backend"
  let database ← getProp aiResult "database"
  let hosting ← getProp aiResult "hosting"
  pure {
    frontend := jsOr frontend (.str "Not specified")
    backend := jsOr backend (.str "Not specified")
    database := jsOr database (.str "Not specified")
    hosting := jsOr hosting (.str "Not specified") }

/-! ## Concrete fixtures used by counterexamples and witnesses -/

/-- A project whose five steps are all `completed`. -/
def doneProject : Project :=
  { createProject "p1" "Acme" with
    status := .completed
    steps := (defaultSteps "p1").map fun s => { s with status := .completed } }

/-- A freshly created project: status `draft`, all five steps `pending`. -/
def freshProject : Project := createProject "p2" "Acme"

/-- Saved user preferences with a non-empty `frontend`. -/
def vuePreferences : DefaultTechStack :=
  { frontend := "Vue", backend := "Django", database := "MySQL", hosting := "Render",
    additional := "" }

/-- A model response whose `frontend` differs from the user preference. -/
def reactAiResult : JSVal :=
  .obj [("frontend", .str "React"), ("backend", .str "Node.js"),
        ("database", .str "PostgreSQL"), ("hosting", .str "AWS")]

/-- The canonical record produced by the Output Normalizer on the empty
object: every field defaulted, `implementation` left `undefined`. -/
def emptyCanonicalRecord : List (String × JSVal) :=
  [ ("summary", .obj [("elevatorPitch", .str ""), ("summary", .str "")]),
    ("personas", .arr []),
    ("features", .arr []),
    ("techStack", .obj [
      ("frontend", .str "Not specified"), ("backend", .str "Not specified"),
      ("database", .str "Not specified"), ("hosting", .str "Not specified")]),
    ("uiDesign", .obj [("principles", .arr []), ("palette", .obj []), ("screens", .arr [])]),
    ("implementation", .undefined) ]

/-- A stored PRD record that does carry an implementation plan. -/
def prdWithImpl : List (String × JSVal) :=
  [ ("summary", .str "s"),
    ("implementation", .obj [
      ("timeline", .arr [.str "t"]),
      ("resources", .arr [.str "r"]),
      ("stakeholders", .arr [.str "k"])]) ]

/-- `prdWithImpl` after regenerating its `summary` section from the model
response `{}`. -/
def prdWithImplUpdated : List (String × JSVal) :=
  [ ("summary", .obj [("elevatorPitch", .str ""), ("summary", .str "")]),
    ("implementation", .obj [
      ("timeline", .arr [.str "t"]),
      ("resources", .arr [.str "r"]),
      ("stakeholders", .arr [.str "k"])]) ]

/-- The Stage-2-while-Stage-4-active scenario: steps 1-3 completed, step
4 in progress, step 5 pending, and the user is viewing step 2
(index 1). -/
def midProject : Project :=
  { id := "p3", name := "Acme", status := .inProgress,
    steps :=
      [ { id := "p3_step_1", title := "Input Analysis", status := .completed, content := .undefined },
        { id := "p3_step_2", title := "Idea Generation", status := .completed, content := .undefined },
        { id := "p3_step_3", title := "Idea Refinement", status := .completed, content := .undefined },
        { id := "p3_step_4", title := "PRD Generation", status := .inProgress, content := .undefined },
        { id := "p3_step_5", title := "Project Finalization", status := .pending, content := .undefined } ] }

/-! # Theorems -/

@[simp] theorem exceptOk_bind {α β : Type} (a : α) (f : α → Except Unit β) :
    (Except.ok a : Except Unit α) >>= f = f a := rfl

@[simp] theorem exceptError_bind {α β : Type} (e : Unit) (f : α → Except Unit β) :
    (Except.error e : Except Unit α) >>= f = Except.error e := rfl

@[simp] theorem getPropD_obj (fs : List (String × JSVal)) (k : String) :
    getPropD (.obj fs) k = lookupD fs k := rfl

theorem lookupD_setField_ne (fs : List (String × JSVal)) (k k' : String) (v : JSVal)
    (h : k' ≠ k) : lookupD (setField fs k v) k' = lookupD fs k' := by
  induction fs with
  | nil => simp [setField, lookupD, Ne.symm h]
  | cons kv rest ih =>
      obtain ⟨k₀, v₀⟩ := kv
      by_cases hk : k₀ = k
      · subst hk
        simp [setField, lookupD, Ne.symm h]
      · by_cases hk' : k₀ = k'
        · simp [setField, hk, lookupD, hk', h]
        · simp [setField, hk, lookupD, hk', ih]

theorem lookupD_setField_self (fs : List (String × JSVal)) (k : String) (v : JSVal) :
    lookupD (setField fs k v) k = v := by
  induction fs with
  | nil => simp [setField, lookupD]
  | cons kv rest ih =>
      obtain ⟨k₀, v₀⟩ := kv
      by_cases hk : k₀ = k
      · subst hk
        simp [setField, lookupD]
      · simp [setField, hk, lookupD, ih]

/-- C1: the Output Normalizer is claimed total for every JSON object,
including section arrays containing `null` entries; but on the object
`{personas: [null]}` the persona callback reads `null.name` and the call
throws a `TypeError` instead of returning a defaulted record. -/
theorem normalizePrdData_throws_on_null_persona_entry :
    normalizePrdData (.obj [("personas", .arr [.null])]) = .error () := rfl

/-! ### Idempotence of the Output Normalizer -/

@[simp] theorem exceptPure {α : Type} (a : α) :
    (pure a : Except Unit α) = .ok a := rfl

@[simp] theorem getProp_objFields (fs : List (String × JSVal)) (k : String) :
    getProp (.obj fs) k = .ok (lookupD fs k) := rfl

@[simp] theorem optChain_objFields (fs : List (String × JSVal)) (k : String) :
    optChain (.obj fs) k = lookupD fs k := rfl

@[simp] theorem jsOr_obj (fs : List (String × JSVal)) (d : JSVal) :
    jsOr (.obj fs) d = .obj fs := rfl

@[simp] theorem jsOr_arr (xs : List JSVal) (d : JSVal) :
    jsOr (.arr xs) d = .arr xs := rfl

@[simp] theorem selectSection_arr (xs : List JSVal) (k : String) :
    selectSection (.arr xs) k = xs := rfl

theorem notNullish_of_truthy (v : JSVal) (h : truthy v = true) : notNullish v = true := by
  cases v <;> simp_all [truthy, notNullish]

@[simp] theorem notNullish_jsOr_obj (a : JSVal) (fs : List (String × JSVal)) :
    notNullish (jsOr a (.obj fs)) = true := by
  by_cases h : truthy a = true
  · rw [jsOr, if_pos h]
    exact notNullish_of_truthy a h
  · rw [jsOr, if_neg h]
    rfl

theorem jsOr_idem (a d : JSVal) : jsOr (jsOr a d) d = jsOr a d := by
  by_cases h : truthy a = true
  · simp [jsOr, h]
  · by_cases hd : truthy d = true <;> simp [jsOr, h, hd]

theorem jsOr_empty_of_isString (v : JSVal) (h : isString v = true) :
    jsOr v (.str "") = v := by
  cases v with
  | str a =>
      by_cases ha : a = ""
      · subst ha; rfl
      · simp [jsOr, truthy, ha]
  | undefined => simp [isString] at h
  | null => simp [isString] at h
  | bool b => simp [isString] at h
  | num n => simp [isString] at h
  | arr xs => simp [isString] at h
  | obj fs => simp [isString] at h

theorem jsOr_str_empty (a : String) : jsOr (.str a) (.str "") = .str a :=
  jsOr_empty_of_isString (.str a) rfl

theorem isArray_wrapList (v : JSVal) : isArray (wrapList v) = true := by
  unfold wrapList
  split
  next h => exact h
  next => split <;> rfl

theorem wrapList_of_isArray (v : JSVal) (h : isArray v = true) : wrapList v = v := by
  rw [wrapList, if_pos h]

theorem wrapList_idem (v : JSVal) : wrapList (wrapList v) = wrapList v :=
  wrapList_of_isArray _ (isArray_wrapList v)

theorem isArray_normPrinciples (v : JSVal) : isArray (normPrinciples v) = true := by
  unfold normPrinciples
  split
  next h => exact h
  next => split <;> rfl

theorem normPrinciples_of_isArray (v : JSVal) (h : isArray v = true) :
    normPrinciples v = v := by
  rw [normPrinciples, if_pos h]

theorem normPrinciples_idem (v : JSVal) :
    normPrinciples (normPrinciples v) = normPrinciples v :=
  normPrinciples_of_isArray _ (isArray_normPrinciples v)

theorem isString_jsOr_obj (a : JSVal) (fs : List (String × JSVal))
    (ha : isString a = false) : isString (jsOr a (.obj fs)) = false := by
  by_cases h : truthy a = true
  · rw [jsOr, if_pos h]; exact ha
  · rw [jsOr, if_neg h]; rfl

theorem normPalette_idem (v : JSVal) : normPalette (normPalette v) = normPalette v := by
  by_cases h : isString v = true
  · have hv : normPalette v = .obj [("colors", v)] := by rw [normPalette, if_pos h]
    rw [hv]
    rfl
  · have hv : normPalette v = jsOr v (.obj []) := by rw [normPalette, if_neg h]
    have hns : isString (jsOr v (.obj [])) = false :=
      isString_jsOr_obj v [] (Bool.eq_false_iff.mpr h)
    rw [hv, normPalette, if_neg (by simp [hns])]
    exact jsOr_idem v (.obj [])

theorem normPersona_fix (i : Nat) (p p' : JSVal) (h : normPersona i p = .ok p') :
    normPersona i p' = .ok p' := by
  unfold normPersona at h ⊢
  by_cases hp : notNullish p = true
  · simp only [getProp, hp, if_true, exceptOk_bind, exceptPure, Except.ok.injEq] at h
    subst h
    simp [getPropD, lookupD, jsOr_idem, wrapList_idem]
  · simp [getProp, hp] at h

theorem normFeature_fix (f f' : JSVal) (h : normFeature f = .ok f') :
    normFeature f' = .ok f' := by
  unfold normFeature at h ⊢
  by_cases hf : notNullish f = true
  · simp only [getProp, hf, if_true, exceptOk_bind, exceptPure, Except.ok.injEq] at h
    subst h
    simp [getPropD, lookupD, jsOr_idem]
  · simp [getProp, hf] at h

theorem normScreen_fix (s s' : JSVal) (h : normScreen s = .ok s') :
    normScreen s' = .ok s' := by
  unfold normScreen at h ⊢
  by_cases hstr : isString s = true
  · rw [if_pos hstr] at h
    simp only [exceptPure, Except.ok.injEq] at h
    subst h
    rw [if_neg (by simp [isString])]
    simp [getPropD, lookupD, jsOr_empty_of_isString s hstr, jsOr_str_empty]
  · rw [if_neg hstr] at h
    by_cases hs : notNullish s = true
    · simp only [getProp, hs, if_true, exceptOk_bind, exceptPure, Except.ok.injEq] at h
      subst h
      rw [if_neg (by simp [isString])]
      simp [getPropD, lookupD, jsOr_idem]
    · simp [getProp, hs] at h

theorem normPhase_fix (p p' : JSVal) (h : normPhase p = .ok p') :
    normPhase p' = .ok p' := by
  unfold normPhase at h ⊢
  by_cases hp : notNullish p = true
  · simp only [getProp, hp, if_true, exceptOk_bind, exceptPure, Except.ok.injEq] at h
    subst h
    simp [getPropD, lookupD, jsOr_idem, wrapList_idem]
  · simp [getProp, hp] at h

theorem normResource_fix (r r' : JSVal) (h : normResource r = .ok r') :
    normResource r' = .ok r' := by
  unfold normResource at h ⊢
  by_cases hr : notNullish r = true
  · simp only [getProp, hr, if_true, exceptOk_bind, exceptPure, Except.ok.injEq] at h
    subst h
    simp [getPropD, lookupD, jsOr_idem, wrapList_idem]
  · simp [getProp, hr] at h

theorem normStakeholder_fix (s s' : JSVal) (h : normStakeholder s = .ok s') :
    normStakeholder s' = .ok s' := by
  unfold normStakeholder at h ⊢
  by_cases hs : notNullish s = true
  · simp only [getProp, hs, if_true, exceptOk_bind, exceptPure, Except.ok.injEq] at h
    subst h
    simp [getPropD, lookupD, jsOr_idem, wrapList_idem]
  · simp [getProp, hs] at h

theorem mapME_fix (f : JSVal → Except Unit JSVal)
    (hf : ∀ a b, f a = .ok b → f b = .ok b) :
    ∀ xs ys : List JSVal, mapME f xs = .ok ys → mapME f ys = .ok ys := by
  intro xs
  induction xs with
  | nil =>
      intro ys h
      simp only [mapME, exceptPure, Except.ok.injEq] at h
      subst h
      rfl
  | cons x rest ih =>
      intro ys h
      simp only [mapME] at h
      cases hx : f x with
      | error e => rw [hx] at h; simp at h
      | ok y =>
          rw [hx] at h
          simp only [exceptOk_bind] at h
          cases hrest : mapME f rest with
          | error e => rw [hrest] at h; simp at h
          | ok ys' =>
              rw [hrest] at h
              simp only [exceptOk_bind, exceptPure, Except.ok.injEq] at h
              subst h
              simp only [mapME, hf x y hx, exceptOk_bind, ih ys' hrest, exceptPure]

theorem mapIdxME_fix (f : Nat → JSVal → Except Unit JSVal)
    (hf : ∀ i a b, f i a = .ok b → f i b = .ok b) :
    ∀ (xs : List JSVal) (i : Nat) (ys : List JSVal),
      mapIdxME f i xs = .ok ys → mapIdxME f i ys = .ok ys := by
  intro xs
  induction xs with
  | nil =>
      intro i ys h
      simp only [mapIdxME, exceptPure, Except.ok.injEq] at h
      subst h
      rfl
  | cons x rest ih =>
      intro i ys h
      simp only [mapIdxME] at h
      cases hx : f i x with
      | error e => rw [hx] at h; simp at h
      | ok y =>
          rw [hx] at h
          simp only [exceptOk_bind] at h
          cases hrest : mapIdxME f (i + 1) rest with
          | error e => rw [hrest] at h; simp at h
          | ok ys' =>
              rw [hrest] at h
              simp only [exceptOk_bind, exceptPure, Except.ok.injEq] at h
              subst h
              simp only [mapIdxME, hf i x y hx, exceptOk_bind, ih (i + 1) ys' hrest,
                exceptPure]

theorem mapME_of_fixed (f : JSVal → Except Unit JSVal) :
    ∀ ys : List JSVal, (∀ a ∈ ys, f a = .ok a) → mapME f ys = .ok ys := by
  intro ys
  induction ys with
  | nil => intro _; rfl
  | cons y rest ih =>
      intro hall
      simp only [mapME, hall y (List.mem_cons_self y rest), exceptOk_bind,
        ih fun a ha => hall a (List.mem_cons_of_mem y ha), exceptPure]

theorem normSection_arr (f : JSVal → Except Unit JSVal)
    (hf : ∀ a b, f a = .ok b → f b = .ok b) (raw : JSVal) (ts : List JSVal)
    (h : normSection f raw = .ok ts) : normSection f (.arr ts) = .ok ts := by
  rw [normSection, if_pos (show isArray (JSVal.arr ts) = true from rfl)]
  by_cases hr : isArray raw = true
  · rw [normSection, if_pos hr] at h
    exact mapME_fix f hf _ _ h
  · rw [normSection, if_neg hr] at h
    simp only [exceptPure, Except.ok.injEq] at h
    subst h
    rfl

theorem normScreens_arr (raw : JSVal) (ss : List JSVal)
    (h : normScreens raw = .ok ss) : normScreens (.arr ss) = .ok ss := by
  rw [normScreens, if_pos (show isArray (JSVal.arr ss) = true from rfl)]
  by_cases hr : isArray raw = true
  · rw [normScreens, if_pos hr] at h
    exact mapME_fix normScreen normScreen_fix _ _ h
  · rw [normScreens, if_neg hr] at h
    by_cases hstr : isString raw = true
    · rw [if_pos hstr] at h
      simp only [exceptPure, Except.ok.injEq] at h
      subst h
      apply mapME_of_fixed
      intro a ha
      simp only [asArray] at ha
      rw [List.mem_map] at ha
      obtain ⟨piece, -, rfl⟩ := ha
      rw [normScreen, if_neg (by simp [isString])]
      simp [getPropD, lookupD, jsOr_str_empty]
    · rw [if_neg hstr] at h
      simp only [exceptPure, Except.ok.injEq] at h
      subst h
      rfl

theorem normImplementation_fix (v w : JSVal) (h : normImplementation v = .ok w) :
    normImplementation w = .ok w := by
  unfold normImplementation at h ⊢
  by_cases hv : truthy v = true
  · rw [if_pos hv] at h
    have hnn : notNullish v = true := notNullish_of_truthy v hv
    simp only [getProp, hnn, if_true, exceptOk_bind] at h
    cases ht : normSection normPhase (getPropD v "timeline") with
    | error e => rw [ht] at h; simp at h
    | ok tl =>
        rw [ht] at h
        simp only [exceptOk_bind] at h
        cases hr : normSection normResource (getPropD v "resources") with
        | error e => rw [hr] at h; simp at h
        | ok rl =>
            rw [hr] at h
            simp only [exceptOk_bind] at h
            cases hs : normSection normStakeholder (getPropD v "stakeholders") with
            | error e => rw [hs] at h; simp at h
            | ok sl =>
                rw [hs] at h
                simp only [exceptOk_bind, exceptPure, Except.ok.injEq] at h
                subst h
                rw [if_pos (show truthy (JSVal.obj [("timeline", JSVal.arr tl), ("resources", JSVal.arr rl), ("stakeholders", JSVal.arr sl)]) = true from rfl)]
                have ht2 := normSection_arr normPhase normPhase_fix _ _ ht
                have hr2 := normSection_arr normResource normResource_fix _ _ hr
                have hs2 := normSection_arr normStakeholder normStakeholder_fix _ _ hs
                simp [getPropD, lookupD, ht2, hr2, hs2]
  · rw [if_neg hv] at h
    simp only [exceptPure, Except.ok.injEq] at h
    subst h
    rfl

/-- Successful normalizer outputs are fixed points: if `normalizePrdData x`
returns a record, normalizing that record returns it unchanged. -/
theorem normalizePrdData_fix (x y : JSVal) (h : normalizePrdData x = .ok y) :
    normalizePrdData y = .ok y := by
  unfold normalizePrdData at h
  by_cases hx : notNullish x = true
  · simp only [getProp, hx, if_true, exceptOk_bind, exceptPure, notNullish_jsOr_obj] at h
    cases hps : mapIdxME normPersona 0 (selectSection (getPropD x "personas") "personas") with
    | error e => rw [hps] at h; simp at h
    | ok ps =>
        rw [hps] at h
        simp only [exceptOk_bind] at h
        cases hfs : mapME normFeature (selectSection (getPropD x "features") "features") with
        | error e => rw [hfs] at h; simp at h
        | ok fs =>
            rw [hfs] at h
            simp only [exceptOk_bind] at h
            cases hss : normScreens
                (getPropD (jsOr (getPropD x "uiDesign") (.obj [])) "screens") with
            | error e => rw [hss] at h; simp at h
            | ok ss =>
                rw [hss] at h
                simp only [exceptOk_bind] at h
                cases himpl : normImplementation (getPropD x "implementation") with
                | error e => rw [himpl] at h; simp at h
                | ok impl =>
                    rw [himpl] at h
                    simp only [exceptOk_bind, exceptPure, Except.ok.injEq] at h
                    subst h
                    have hps2 := mapIdxME_fix normPersona normPersona_fix _ 0 _ hps
                    have hfs2 := mapME_fix normFeature normFeature_fix _ _ hfs
                    have hss2 := normScreens_arr _ _ hss
                    have himpl2 := normImplementation_fix _ _ himpl
                    unfold normalizePrdData
                    simp [getPropD, lookupD, jsOr_idem, hps2, hfs2, hss2, himpl2,
                      normPrinciples_idem, normPalette_idem]
  · simp [getProp, hx] at h

/-- C6: the Output Normalizer is idempotent: composing `normalizePrdData`
with itself equals a single application on every input value (a throwing
input throws identically), and every record it returns is normalized to
an equal record. -/
theorem normalizePrdData_idempotent (x : JSVal) :
    normalizePrdData x >>= normalizePrdData = normalizePrdData x ∧
    ∀ y : JSVal, normalizePrdData x = .ok y → normalizePrdData y = .ok y := by
  constructor
  · cases h : normalizePrdData x with
    | error e => rfl
    | ok y => rw [exceptOk_bind]; exact normalizePrdData_fix x y h
  · intro y h
    exact normalizePrdData_fix x y h

/-- Concrete instance of C6: renormalizing the canonical record of the
empty object changes nothing. -/
theorem normalizePrdData_idempotent_witness :
    normalizePrdData (.obj []) >>= normalizePrdData = normalizePrdData (.obj []) :=
  (normalizePrdData_idempotent (.obj [])).1

/-- C2: `completeStep` with a `stepId` that does not belong to the
project is claimed to be a silent no-op; but `findIndex` returns `-1`,
the guard `-1 < length - 1` passes, and `updatedSteps[0]` is set to
`pending` while the project status is recomputed — on a fully completed
project the first step drops to `pending` and the project to
`in-progress`. -/
theorem completeStep_foreign_stepId_mutates_state :
    (completeStep [doneProject] "p1" "bogus" .undefined).map
        (fun p => (p.status, p.steps.map Step.status)) =
      [(.inProgress, [.pending, .completed, .completed, .completed, .completed])] ∧
    doneProject.status = .completed ∧
    doneProject.steps.map Step.status =
      [.completed, .completed, .completed, .completed, .completed] :=
  ⟨rfl, rfl, rfl⟩

/-- C3: completed steps are claimed never to leave `completed` except via
the rewind; but `completeStep` sets the successor step to `pending`
unconditionally, so re-completing step 1 of a fully completed project
reverts the completed step 2 to `pending`. -/
theorem completeStep_reverts_completed_successor :
    (completeStep [doneProject] "p1" "p1_step_1" (.str "redo")).map
        (fun p => p.steps.map Step.status) =
      [[.completed, .pending, .completed, .completed, .completed]] ∧
    doneProject.steps.map Step.status =
      [.completed, .completed, .completed, .completed, .completed] :=
  ⟨rfl, rfl⟩

/-- C4: the project status is claimed to equal the spec's derivation
(`draft` iff no step has left `pending`) after every operation; but
`completeStep` on a draft project with a foreign `stepId` writes
`in-progress` while every step is still `pending`.  Before the call the
invariant holds (`draft` = derived). -/
theorem completeStep_breaks_draft_derivation :
    (completeStep [freshProject] "p2" "bogus" .undefined).map
        (fun p => (p.status, specDerivedStatus p.steps)) =
      [(.inProgress, .draft)] ∧
    freshProject.status = specDerivedStatus freshProject.steps :=
  ⟨rfl, rfl⟩

/-- C9: the comment above the `techStack` assembly in `techRecommender`
promises `Priority order: User preferences > Context mentions > AI
suggestions`, and the spec says a non-empty user preference wins; but the
preferences are only interpolated into the prompt text, and the returned
field is the model's suggestion: with the user preferring `Vue` and the
model answering `React`, the output `frontend` is `React`. -/
theorem techRecommender_ignores_nonempty_user_preference :
    (techRecommender (some vuePreferences) reactAiResult).map
        TechStackRecommendation.frontend = .ok (.str "React") ∧
    vuePreferences.frontend = "Vue" ∧ "React" ≠ "Vue" :=
  ⟨rfl, rfl, by decide⟩

/-! ### Helper lemmas about the store operations -/

theorem status_map_write_of_ne_draft (ps : List Project) (u : Project) (targetId : String)
    (i : Nat) (hu : u.status ≠ .draft)
    (h : ((ps.map fun p => if p.id = targetId then u else p)[i]?).map Project.status =
      some .draft) :
    (ps[i]?).map Project.status = some .draft := by
  rw [List.getElem?_map, Option.map_map, Option.map_eq_some'] at h
  obtain ⟨p, hp, hF⟩ := h
  by_cases hid : p.id = targetId
  · exact absurd (by simpa [Function.comp, hid] using hF) hu
  · rw [hp]
    simpa [Function.comp, hid] using hF

/-- C10: project status never returns to `draft`: creation writes
`draft`; afterwards, wherever `completeStep` or the confirmed rewind
leaves a project with status `draft`, that project already had status
`draft` before the call. `completeStep` writes only `in-progress` or
`completed`; the confirmed rewind writes `in-progress` and then the
stale-closure follow-up write restores the pre-call status of the project,
which in either case is never a fresh `draft`. Stated under distinct
project ids (the store generates unique primary keys). -/
theorem projectStatus_never_reverts_to_draft (projects : List Project)
    (projectId stepId : String) (data : JSVal) (project : Project) (currentStepIndex : Nat)
    (pendingStepId : String) (pendingContent : JSVal) (newId newName : String)
    (hnodup : (projects.map Project.id).Nodup) :
    (createProject newId newName).status = .draft ∧
    (∀ i : Nat,
      ((completeStep projects projectId stepId data)[i]?).map Project.status = some .draft →
      (projects[i]?).map Project.status = some .draft) ∧
    (∀ i : Nat,
      ((handleConfirmChange projects project currentStepIndex pendingStepId
        pendingContent)[i]?).map Project.status = some .draft →
      (projects[i]?).map Project.status = some .draft) := by
  refine ⟨rfl, ?_, ?_⟩
  · intro i h
    unfold completeStep at h
    split at h
    next => exact h
    next proj heq =>
      simp only [updateProjectInList] at h
      refine status_map_write_of_ne_draft projects _ _ i ?_ h
      intro hh
      dsimp only at hh
      split at hh <;> split at hh <;> exact ProjStatus.noConfusion hh
  · intro i h
    simp only [handleConfirmChange, updateStepContentStale] at h
    split at h
    next heq =>
      simp only [updateProjectInList] at h
      refine status_map_write_of_ne_draft projects _ _ i ?_ h
      intro hh
      exact ProjStatus.noConfusion hh
    next stale heq =>
      have hstaleid : stale.id = project.id := by
        have := List.find?_some heq
        simpa using this
      have hstalemem : stale ∈ projects := List.mem_of_find?_eq_some heq
      simp only [updateProjectInList, List.map_map] at h
      rw [List.getElem?_map, Option.map_map, Option.map_eq_some'] at h
      obtain ⟨p, hp, hF⟩ := h
      have hpmem : p ∈ projects := List.getElem?_mem hp
      by_cases hid : p.id = project.id
      · have hps : p = stale := by
          apply List.inj_on_of_nodup_map hnodup hpmem hstalemem
          rw [hid, hstaleid]
        have hstatus : stale.status = .draft := by
          simpa [Function.comp, hid, hstaleid] using hF
        rw [hp]
        simp [hps, hstatus]
      · have hpstatus : p.status = .draft := by
          simpa [Function.comp, hid, hstaleid] using hF
        rw [hp]
        simp [hpstatus]

/-- C5: the confirmation flow asks before touching anything and cancel
changes nothing, as claimed; but the claimed post-confirm statuses never
materialize. The follow-up content write runs from the stale pre-rewind
closure and writes the old step statuses and project status back over
the rewound entry, so confirming the edit of completed Stage 2 while
Stage 4 is active leaves every status exactly as before the call
(Stages 1-3 completed, Stage 4 in-progress, Stage 5 pending) with only
the content of the edited step changed — not the claimed Stage 2
in-progress / Stages 3-5 pending. -/
theorem rewind_confirm_clobbered_by_stale_write :
    handleStepUpdate [midProject] midProject 1 "p3_step_2" (.str "edit") =
      (some ("p3_step_2", .str "edit"), [midProject]) ∧
    handleCancelChange [midProject] = [midProject] ∧
    (handleConfirmChange [midProject] midProject 1 "p3_step_2" (.str "edit")).map
        (fun p => (p.status, p.steps.map fun s => (s.status, s.content))) =
      [(.inProgress,
        [(.completed, .undefined), (.completed, .str "edit"), (.completed, .undefined),
          (.inProgress, .undefined), (.pending, .undefined)])] :=
  ⟨rfl, rfl, rfl⟩

/-- C8: the content-only update: statuses of every project and every
step are pointwise unchanged, the contents of steps other than the
matching one are unchanged, and every step with the given id inside the
matching project holds the new content afterwards. -/
theorem updateStepContent_is_content_only (projects : List Project)
    (projectId stepId : String) (content : JSVal)
    (hnodup : (projects.map Project.id).Nodup) :
    (updateStepContent projects projectId stepId content).map
        (fun p => (p.status, p.steps.map Step.status)) =
      projects.map (fun p => (p.status, p.steps.map Step.status)) ∧
    (updateStepContent projects projectId stepId content).map
        (fun p => p.steps.map fun s =>
          (s.id, if s.id = stepId then none else some s.content)) =
      projects.map (fun p => p.steps.map fun s =>
        (s.id, if s.id = stepId then none else some s.content)) ∧
    (∀ p' ∈ updateStepContent projects projectId stepId content, p'.id = projectId →
      ∀ s ∈ p'.steps, s.id = stepId → s.content = content) := by
  unfold updateStepContent
  split
  next heq =>
    refine ⟨rfl, rfl, ?_⟩
    intro p' hp' hid s _ _
    have := List.find?_eq_none.mp heq p' hp'
    simp only [decide_eq_true_eq] at this
    exact absurd hid this
  next proj heq =>
    have hmem := List.mem_of_find?_eq_some heq
    have hprojid : proj.id = projectId := by
      have := List.find?_some heq
      simpa using this
    refine ⟨?_, ?_, ?_⟩
    · rw [updateProjectInList, List.map_map]
      apply List.map_congr_left
      intro p hp
      by_cases h : p.id = proj.id
      · have hpp : p = proj := List.inj_on_of_nodup_map hnodup hp hmem h
        subst hpp
        dsimp only [Function.comp]
        split
        next =>
          simp only [Prod.mk.injEq]
          refine ⟨trivial, ?_⟩
          rw [List.map_map]
          apply List.map_congr_left
          intro s _
          by_cases hs : s.id = stepId <;> simp [Function.comp, hs]
        next hfalse => exact absurd rfl hfalse
      · simp [Function.comp, h]
    · rw [updateProjectInList, List.map_map]
      apply List.map_congr_left
      intro p hp
      by_cases h : p.id = proj.id
      · have hpp : p = proj := List.inj_on_of_nodup_map hnodup hp hmem h
        subst hpp
        dsimp only [Function.comp]
        split
        next =>
          rw [List.map_map]
          apply List.map_congr_left
          intro s _
          by_cases hs : s.id = stepId <;> simp [Function.comp, hs]
        next hfalse => exact absurd rfl hfalse
      · simp [Function.comp, h]
    · intro p' hp' hid s hs hsid
      rw [updateProjectInList, List.mem_map] at hp'
      obtain ⟨p, hp, rfl⟩ := hp'
      by_cases h : p.id = proj.id
      · rw [if_pos h] at hs
        dsimp only at hs
        rw [List.mem_map] at hs
        obtain ⟨s₀, -, rfl⟩ := hs
        by_cases hs₀ : s₀.id = stepId
        · rw [if_pos hs₀]
        · rw [if_neg hs₀] at hsid
          exact absurd hsid hs₀
      · rw [if_neg h] at hid
        exact absurd (hid.trans hprojid.symm) h

/-- Concrete instance of C8: an autosave write into the first step of a
fresh project changes no status anywhere. -/
theorem updateStepContent_is_content_only_witness :
    (updateStepContent [freshProject] "p2" "p2_step_1" (.str "note")).map
        (fun p => (p.status, p.steps.map Step.status)) =
      [freshProject].map (fun p => (p.status, p.steps.map Step.status)) :=
  (updateStepContent_is_content_only [freshProject] "p2" "p2_step_1" (.str "note")
    (by simp)).1

/-- C7: per-section regeneration is claimed to leave the other two
implementation lists equal to their value before the call for every
stored PRD record; but on a record with no implementation plan (such as
the normalizer's output for the empty object, a reachable stored record)
generating the `timeline` sub-section changes the `resources` slot from
`undefined` to the empty array. -/
theorem generateImplementationSection_initializes_siblings :
    normalizePrdData (.obj []) = .ok (.obj emptyCanonicalRecord) ∧
    getPropD (lookupD emptyCanonicalRecord "implementation") "resources" = .undefined ∧
    getPropD (lookupD (generateImplementationSectionData emptyCanonicalRecord "timeline"
        (.arr [])) "implementation") "resources" = .arr [] ∧
    JSVal.undefined ≠ JSVal.arr [] :=
  ⟨rfl, rfl, rfl, fun h => JSVal.noConfusion h⟩

/-- C7 (amended): regenerating a top-level section replaces only that
key — every other key of the stored record, the implementation plan
included and with no condition on whether a plan exists, is unchanged;
the implementation sub-section regeneration changes no key other than
`implementation`; and when the record already carries an implementation
plan object, the implementation lists other than the regenerated one
keep their previous values (when no plan exists, the two sibling lists
are initialized to empty arrays, as the counterexample shows). -/
theorem regeneration_preserves_unrelated_sections
    (prdData : List (String × JSVal)) (sectionKey subKey otherKey otherSub : String)
    (result subResult : JSVal) :
    (∀ updated : List (String × JSVal),
      regenerateSectionData prdData sectionKey result = .ok updated →
      otherKey ≠ sectionKey → lookupD updated otherKey = lookupD prdData otherKey) ∧
    (otherKey ≠ "implementation" →
      lookupD (generateImplementationSectionData prdData subKey subResult) otherKey =
        lookupD prdData otherKey) ∧
    (∀ implFields : List (String × JSVal),
      lookupD prdData "implementation" = .obj implFields →
      otherSub ≠ subKey →
      (otherSub = "timeline" ∨ otherSub = "resources" ∨ otherSub = "stakeholders") →
      getPropD (lookupD (generateImplementationSectionData prdData subKey subResult)
          "implementation") otherSub =
        getPropD (lookupD prdData "implementation") otherSub) := by
  refine ⟨?_, ?_, ?_⟩
  · intro updated hok hne
    rw [regenerateSectionData] at hok
    cases hn : normalizePrdData (.obj [(sectionKey, result)]) with
    | error e => rw [hn] at hok; cases hok
    | ok nr =>
        rw [hn] at hok
        simp only [exceptOk_bind] at hok
        cases hok
        exact lookupD_setField_ne _ _ _ _ hne
  · intro hneImpl
    simp only [generateImplementationSectionData]
    exact lookupD_setField_ne _ _ _ _ hneImpl
  · intro implFields himpl hsub hmem
    simp only [generateImplementationSectionData]
    rw [lookupD_setField_self, himpl]
    rw [getPropD_obj, lookupD_setField_ne _ _ _ _ hsub]
    rcases hmem with rfl | rfl | rfl <;> simp [lookupD, getPropD, jsOr, truthy]

/-- Concrete instance of C7 (amended): regenerating `summary` preserves
the stored implementation plan, regenerating the implementation
`timeline` preserves `summary`, and the `resources` list survives a
`timeline` regeneration when a plan exists. -/
theorem regeneration_preserves_unrelated_sections_witness :
    lookupD prdWithImplUpdated "implementation" = lookupD prdWithImpl "implementation" ∧
    lookupD (generateImplementationSectionData prdWithImpl "timeline" (.str "x"))
        "summary" = lookupD prdWithImpl "summary" ∧
    getPropD (lookupD (generateImplementationSectionData prdWithImpl "timeline" (.str "x"))
        "implementation") "resources" =
      getPropD (lookupD prdWithImpl "implementation") "resources" :=
  ⟨(regeneration_preserves_unrelated_sections prdWithImpl "summary" "timeline"
      "implementation" "resources" (.obj []) (.str "x")).1 prdWithImplUpdated rfl
      (by decide),
    (regeneration_preserves_unrelated_sections prdWithImpl "summary" "timeline"
      "summary" "resources" (.obj []) (.str "x")).2.1 (by decide),
    (regeneration_preserves_unrelated_sections prdWithImpl "summary" "timeline"
      "summary" "resources" (.obj []) (.str "x")).2.2
      [("timeline", .arr [.str "t"]), ("resources", .arr [.str "r"]),
        ("stakeholders", .arr [.str "k"])] rfl (by decide) (Or.inr (Or.inl rfl))⟩

/-- Concrete instance of C10: a newly created project starts in
`draft`, extracted from the theorem instantiated at a concrete
single-project store with distinct ids. -/
theorem projectStatus_never_reverts_to_draft_witness :
    (createProject "p9" "Nine").status = .draft :=
  (projectStatus_never_reverts_to_draft [freshProject] "p2" "p2_step_1" (.str "x")
    freshProject 0 "p2_step_1" (.str "x") "p9" "Nine" (by simp)).1

end IdeaGenius
